import Mathlib

/-! Verification of the Resume-analyzer repository: a shallow embedding of the
upload → extract → submit → diff → view workflow (`src/components`, the
unnamed page component) and of the Langbase client wrapper
(`src/utils/langbase.ts`), together with proofs of the specified properties.
-/

namespace ResumeAnalyzer

/-! Section: JavaScript string primitives

The source is TypeScript; the embedding models JavaScript string
operations (`trim`, `Array.prototype.join`, truthiness) explicitly. -/

/-- The ECMAScript whitespace set recognised by `String.prototype.trim`:
WhiteSpace (TAB, VT, FF, SP, NBSP, BOM, Unicode space separators) and
LineTerminator (LF, CR, LS, PS). -/
def jsWhitespaceB (c : Char) : Bool :=
  c = '\t' ∨ c = '\n' ∨ c = '\x0b' ∨ c = '\x0c' ∨ c = '\r' ∨ c = ' ' ∨
  c = '\u00a0' ∨ c = '\u1680' ∨ ('\u2000' ≤ c ∧ c ≤ '\u200a') ∨
  c = '\u2028' ∨ c = '\u2029' ∨ c = '\u202f' ∨ c = '\u205f' ∨
  c = '\u3000' ∨ c = '\ufeff'

/-- JavaScript `String.prototype.trim` on the character list: drop whitespace from both ends. -/
def jsTrimL (l : List Char) : List Char :=
  ((l.dropWhile jsWhitespaceB).reverse.dropWhile jsWhitespaceB).reverse

/-- JavaScript `s.trim()`. -/
def jsTrim (s : String) : String :=
  String.mk (jsTrimL s.data)

/-- JavaScript `Array.prototype.join(sep)` on a list of strings. -/
def joinSep (sep : String) : List String → String
  | [] => ""
  | [s] => s
  | s :: rest => s ++ sep ++ joinSep sep (rest)

/-- JavaScript truthiness of a nullable string: `null`/`undefined` and `""` are falsy. -/
def optionTruthy : Option String → Bool
  | none => false
  | some s => s ≠ ""

/-! Section: PDF Text Extractor (`extractTextFromPDFData`, part_000 lines 53-92)

A parsed PDF is modelled as its list of pages, each page being the list of
items reported by `page.getTextContent()`; an item either carries a `str`
field (a textual item) or not (e.g. a marked-content item). -/

/-- An item of a page's text content: textual items have a `str` field. -/
inductive PdfItem where
  | textItem (str : String)
  | markedContent
deriving DecidableEq, Repr

/-- The `str` field of an item, when present: the source filters items with
`"str" in item` and maps them to `item.str`. -/
def itemStr : PdfItem → Option String
  | .textItem s => some s
  | .markedContent => none

/-- Embeds `textContent.items.filter(item => "str" in item).map(item => item.str).join(" ")`. -/
def pageText (items : List PdfItem) : String :=
  joinSep " " (items.filterMap itemStr)

/-- The page loop of `extractTextFromPDFData`: for each page in ascending
order, `fullText += pageText + "\n\n"`, then `fullText.trim()`. -/
def extractTextFromPDFData (pages : List (List PdfItem)) : String :=
  jsTrim (((pages.map pageText).foldl (fun fullText t => fullText ++ t ++ "\n\n") ""))

/-- Number of (non-overlapping) blank-line separators `"\n\n"` in a character list. -/
def countBlankSep : List Char → Nat
  | [] => 0
  | [_] => 0
  | c1 :: c2 :: rest =>
    if c1 = '\n' ∧ c2 = '\n' then countBlankSep rest + 1
    else countBlankSep (c2 :: rest)

/-! Section: Diff Engine

Modelled from the spec: the word-diff capability is the external `diff`
library (`diff.diffWords`, called at part_000 lines 45-50); its code is not
part of this repository, so it is modelled from the spec's contract (4.3):
word-granularity tokens delimited by whitespace, a minimal-edit-script-style
sequence of segments each tagged unchanged/added/removed, deterministic, with
the library's identity fast path returning a single component when the two
token sequences coincide. -/

/-- A diff change object as stored in the component state:
`{ added?: boolean; removed?: boolean; value: string }`. -/
structure DiffPart where
  added : Bool
  removed : Bool
  value : String
deriving DecidableEq, Repr

/-- Tag of one token in an edit script. -/
inductive DiffOp where
  | unchanged
  | removed
  | added
deriving DecidableEq, Repr

/-- Modelled from the spec: tokenizer accumulator — extends the current run
while the whitespace class matches, otherwise starts a new run. -/
def tokAux (p : Bool) (cur : List Char) : List Char → List (List Char)
  | [] => [cur.reverse]
  | c :: cs =>
    if jsWhitespaceB c = p then tokAux p (c :: cur) cs
    else cur.reverse :: tokAux (jsWhitespaceB c) [c] cs

/-- Modelled from the spec: split a character list into maximal runs of
whitespace and of non-whitespace (tokens delimited by whitespace, with the
delimiters kept so that joining tokens restores the input). -/
def tokenizeL : List Char → List (List Char)
  | [] => []
  | c :: cs => tokAux (jsWhitespaceB c) [c] cs

/-- Number of non-unchanged entries of an edit script (its edit cost). -/
def opCost (l : List (DiffOp × List Char)) : Nat :=
  (l.filter fun x => x.1 ≠ DiffOp.unchanged).length

/-- Modelled from the spec: a minimal edit script between two token lists —
matching tokens are kept, otherwise the cheaper of deleting the first
remaining old token and inserting the first remaining new token is chosen. -/
def lcsD : List (List Char) → List (List Char) → List (DiffOp × List Char)
  | [], ys => ys.map fun y => (DiffOp.added, y)
  | x :: xs, [] => (x :: xs).map fun x2 => (DiffOp.removed, x2)
  | x :: xs, y :: ys =>
    if x = y then (DiffOp.unchanged, x) :: lcsD xs ys
    else if opCost (lcsD xs (y :: ys)) ≤ opCost (lcsD (x :: xs) ys) then
      (DiffOp.removed, x) :: lcsD xs (y :: ys)
    else
      (DiffOp.added, y) :: lcsD (x :: xs) ys
termination_by xs ys => xs.length + ys.length
decreasing_by all_goals simp_arith

/-- Modelled from the spec: merge adjacent entries carrying the same tag into
one segment (the library's `buildValues` joins consecutive same-kind tokens). -/
def mergeRuns : List (DiffOp × List Char) → List (DiffOp × List Char)
  | [] => []
  | (op, t) :: rest =>
    match mergeRuns rest with
    | [] => [(op, t)]
    | (op2, t2) :: ss =>
      if op = op2 then (op, t ++ t2) :: ss else (op, t) :: (op2, t2) :: ss

/-- Convert a tagged segment to the change-object shape the component stores. -/
def toDiffPart (x : DiffOp × List Char) : DiffPart :=
  { added := x.1 = DiffOp.added, removed := x.1 = DiffOp.removed,
    value := String.mk x.2 }

/-- Modelled from the spec: `diff.diffWords(before, after)` — tokenize both
strings, short-circuit to a single component when the token sequences are
identical (the library's identity fast path), otherwise emit the merged
minimal edit script. -/
def diffWords (before after : String) : List DiffPart :=
  let oldToks := tokenizeL before.data
  let newToks := tokenizeL after.data
  if oldToks = newToks then
    [{ added := false, removed := false, value := String.mk newToks.flatten }]
  else
    (mergeRuns (lcsD oldToks newToks)).map toDiffPart

/-- Characters of an edit script that belong to the old text
(unchanged and removed entries, in order). -/
def keepOld : List (DiffOp × List Char) → List Char
  | [] => []
  | (op, t) :: rest =>
    if op = DiffOp.added then keepOld rest else t ++ keepOld rest

/-- Characters of an edit script that belong to the new text
(unchanged and added entries, in order). -/
def keepNew : List (DiffOp × List Char) → List Char
  | [] => []
  | (op, t) :: rest =>
    if op = DiffOp.removed then keepNew rest else t ++ keepNew rest

/-- Concatenation of the unchanged and removed segments of a diff, in order. -/
def keptOriginal : List DiffPart → String
  | [] => ""
  | p :: rest =>
    if p.added then keptOriginal rest else p.value ++ keptOriginal rest

/-- Concatenation of the unchanged and added segments of a diff, in order. -/
def keptOptimized : List DiffPart → String
  | [] => ""
  | p :: rest =>
    if p.removed then keptOptimized rest else p.value ++ keptOptimized rest

/-! Section: Remote Optimizer Client (`src/utils/langbase.ts`)

The remote service is an oracle: each call receives the service's behaviour
(failure, or a response carrying an optional thread identifier and the
stream's content events) as an explicit argument. The module-level mutable
variables `plainMessage` and `threadId` become an explicit state record. -/

/-- Message role, `"user" | "assistant"`. -/
inductive Role where
  | user
  | assistant
deriving DecidableEq, Repr

/-- TypeScript `interface Message { role: "user" | "assistant"; content: string }`. -/
structure Message where
  role : Role
  content : String
deriving DecidableEq, Repr

/-- The module-level mutable state of `langbase.ts`:
`const plainMessage: Message[] = []` and `let threadId: string | undefined`. -/
structure LangbaseState where
  plainMessage : List Message
  threadId : Option String
deriving DecidableEq, Repr

/-- The argument object of `langbase.pipe.run` as built by `chatWithLangbase`:
`{ name: "resume-analyzer", stream: true, messages: plainMessage,
...(threadId && { threadId }) }`. -/
structure PipeRequest where
  name : String
  stream : Bool
  messages : List Message
  threadId : Option String
deriving DecidableEq, Repr

/-- What the remote pipe returns on success: an optional `threadId` and the
incremental `content` events delivered before the `end` event. -/
structure PipeResponse where
  threadId : Option String
  contentEvents : List String
deriving DecidableEq, Repr

/-- The request object `chatWithLangbase` sends, given the module state after
the push: the `threadId` field is present only when the stored one is truthy. -/
def buildRequest (st : LangbaseState) : PipeRequest :=
  { name := "resume-analyzer", stream := true, messages := st.plainMessage,
    threadId := if optionTruthy st.threadId then st.threadId else none }

/-- Outcome of one `chatWithLangbase` call: the module state afterwards, the
request that was sent, and the returned accumulated string or the re-signaled
error. -/
structure ChatResult where
  state : LangbaseState
  request : PipeRequest
  result : Except Unit String
deriving Repr

/-- Embedding of `chatWithLangbase(message, description)` (langbase.ts lines 21-56):
builds `fullMessage = message + description`, pushes it onto `plainMessage`,
sends the full log (with the thread identifier when one is stored), stores the
returned `threadId` when none was stored and the returned one is truthy,
accumulates the content events, and re-signals any service error after the
push has already happened. -/
def chatWithLangbase (st : LangbaseState) (message description : String)
    (svc : Except Unit PipeResponse) : ChatResult :=
  let fullMessage := message ++ description
  let st1 : LangbaseState :=
    { st with plainMessage := st.plainMessage ++ [{ role := Role.user, content := fullMessage }] }
  let req := buildRequest st1
  match svc with
  | .error e => { state := st1, request := req, result := .error e }
  | .ok resp =>
    let st2 : LangbaseState :=
      if !optionTruthy st1.threadId && optionTruthy resp.threadId then
        { st1 with threadId := resp.threadId }
      else st1
    { state := st2, request := req,
      result := .ok (resp.contentEvents.foldl (fun acc c => acc ++ c) "") }

/-- The client object constructed from the API key. -/
structure Langbase where
  apiKey : String
deriving DecidableEq, Repr

/-- Embedding of `getLangbase` (langbase.ts lines 3-9): reads
`process.env.NEXT_PUBLIC_LANGBASE_API_KEY` and throws when it is absent or
empty (falsy), otherwise constructs the client. -/
def getLangbase (env : Option String) : Except String Langbase :=
  if optionTruthy env then .ok { apiKey := env.getD "" }
  else .error "Missing Langbase API Key. Check your .env.local file."

/-- The module-level constants of `langbase.ts`. -/
structure LangbaseModule where
  langbase : Langbase
deriving DecidableEq, Repr

/-- Evaluation of the `langbase.ts` module: `const langbase = getLangbase()`
runs when the module is first loaded, so a missing credential aborts the
module (and with it every use of `chatWithLangbase`). -/
def initLangbaseModule (env : Option String) : Except String LangbaseModule :=
  match getLangbase env with
  | .ok lb => .ok { langbase := lb }
  | .error msg => .error msg

/-! Section: Upload/View State Machine (part_000, `ResumeUploader`)

The `useState` hooks become one state record; the file-input DOM element's
`value` is carried alongside (the `fileInputRef`). Alerts, `console.error`
logging, and the opened file dialog are recorded as explicit flags. -/

/-- View mode values `"original" | "optimized" | "diff"`. -/
inductive ViewMode where
  | original
  | optimized
  | diff
deriving DecidableEq, Repr

/-- The component state of `ResumeUploader` plus the file input's DOM value. -/
structure UploaderState where
  pdfFile : Option String
  fileName : String
  isLoading : Bool
  extractedText : String
  isSubmitting : Bool
  optimizedResume : Option String
  diffResult : List DiffPart
  viewMode : ViewMode
  fileInputValue : String
deriving DecidableEq, Repr

/-- The initial state of the component: every hook at its `useState` default. -/
def initialState : UploaderState :=
  { pdfFile := none, fileName := "", isLoading := false, extractedText := "",
    isSubmitting := false, optimizedResume := none, diffResult := [],
    viewMode := ViewMode.original, fileInputValue := "" }

/-- Embedding of `resetUpload` (lines 157-164): clears the document, file name, extracted
text, optimized resume, diff result, and view mode. -/
def resetUpload (s : UploaderState) : UploaderState :=
  { s with pdfFile := none, fileName := "", extractedText := "",
           optimizedResume := none, diffResult := [],
           viewMode := ViewMode.original }

/-- Result of `handleUploadClick`: the new state and whether the hidden file
input was clicked (opening the browse dialog). -/
structure ClickResult where
  state : UploaderState
  openedFileDialog : Bool
deriving DecidableEq, Repr

/-- Embedding of `handleUploadClick` (lines 150-155): when `fileInputRef.current` is
mounted, clear its `value` and click it; nothing else is touched. -/
def handleUploadClick (s : UploaderState) (inputMounted : Bool) : ClickResult :=
  if inputMounted then
    { state := { s with fileInputValue := "" }, openedFileDialog := true }
  else
    { state := s, openedFileDialog := false }

/-- Result of `processFile`: the new state, whether the non-PDF alert was
shown, and whether an extraction error was logged. -/
structure ProcessResult where
  state : UploaderState
  alerted : Bool
  loggedError : Bool
deriving DecidableEq, Repr

/-- Embedding of `processFile` (lines 94-118) composed with its `onload` continuation
(lines 100-113): a non-PDF declared type only alerts; otherwise the file name
is stored, loading starts, the data URL is stored, and the extraction oracle
either yields text (stored in `extractedText`) or fails (logged); loading ends
in the `finally` block either way. -/
def processFile (s : UploaderState) (fileType fName pdfData : String)
    (extract : Except Unit String) : ProcessResult :=
  if fileType = "application/pdf" then
    let s1 : UploaderState :=
      { s with fileName := fName, isLoading := true, pdfFile := some pdfData }
    match extract with
    | .ok text =>
      { state := { s1 with extractedText := text, isLoading := false },
        alerted := false, loggedError := false }
    | .error _ =>
      { state := { s1 with isLoading := false },
        alerted := false, loggedError := true }
  else
    { state := s, alerted := true, loggedError := false }

/-- The diff-regeneration effect (lines 45-50): when both `extractedText` and
`optimizedResume` are truthy, recompute `diffResult` from them. -/
def diffEffect (s : UploaderState) : UploaderState :=
  if s.extractedText ≠ "" ∧ optionTruthy s.optimizedResume then
    { s with diffResult := diffWords s.extractedText (s.optimizedResume.getD "") }
  else s

/-- Result of `handleSubmit`: the new state, whether the Optimizer Client was
invoked, and whether a user-visible alert was shown. -/
structure SubmitResult where
  state : UploaderState
  optimizerCalled : Bool
  alerted : Bool
deriving DecidableEq, Repr

/-- Embedding of `handleSubmit` (lines 166-192): reads the job description from the input
element (`|| ""`), rejects with an alert when `extractedText` is empty or the
trimmed job description is empty; otherwise calls the Optimizer Client oracle
and on success stores the optimized text and switches the view mode to
`optimized`, on failure alerts; `isSubmitting` ends `false` either way. -/
def handleSubmit (s : UploaderState) (descriptionInput : Option String)
    (optimize : Except Unit String) : SubmitResult :=
  let jobDescription := descriptionInput.getD ""
  if s.extractedText = "" then
    { state := s, optimizerCalled := false, alerted := true }
  else if jsTrim jobDescription = "" then
    { state := s, optimizerCalled := false, alerted := true }
  else
    match optimize with
    | .ok optimizedText =>
      { state := { s with isSubmitting := false,
                          optimizedResume := some optimizedText,
                          viewMode := ViewMode.optimized },
        optimizerCalled := true, alerted := false }
    | .error _ =>
      { state := { s with isSubmitting := false },
        optimizerCalled := true, alerted := true }

/-- Whether the original/optimized/diff toggle group is rendered (line 366:
`{optimizedResume && (...)}`). -/
def togglesOffered (s : UploaderState) : Bool :=
  optionTruthy s.optimizedResume

/-! Section: Concrete states used by counterexamples and witnesses -/

/-- A fully populated component state (document loaded, optimization done,
diff shown). -/
def populatedStateA : UploaderState :=
  { pdfFile := some "data:application/pdf;base64,AAAA", fileName := "resume.pdf",
    isLoading := false, extractedText := "old resume text", isSubmitting := false,
    optimizedResume := some "optimized resume text",
    diffResult := [{ added := false, removed := false, value := "old resume text" }],
    viewMode := ViewMode.diff, fileInputValue := "" }

/-- A state holding the text of an earlier successful extraction. -/
def populatedStateB : UploaderState :=
  { pdfFile := some "data:application/pdf;base64,AAAA", fileName := "first.pdf",
    isLoading := false, extractedText := "text of the first resume",
    isSubmitting := false, optimizedResume := none, diffResult := [],
    viewMode := ViewMode.original, fileInputValue := "" }

/-- A state carrying a diff from a previous optimization. -/
def stateForEmptyOpt : UploaderState :=
  { pdfFile := some "data:application/pdf;base64,AAAA", fileName := "resume.pdf",
    isLoading := false, extractedText := "resume text", isSubmitting := false,
    optimizedResume := some "earlier optimization",
    diffResult := [{ added := true, removed := false, value := "earlier" }],
    viewMode := ViewMode.diff, fileInputValue := "" }

/-- A client state with a stored thread identifier. -/
def stThreadSet : LangbaseState :=
  { plainMessage := [], threadId := some "thread-1" }

/-- A client state with no stored thread identifier. -/
def stThreadNone : LangbaseState :=
  { plainMessage := [], threadId := none }

/-- A service response carrying a thread identifier. -/
def respWithThread : PipeResponse :=
  { threadId := some "thread-2", contentEvents := ["x"] }

/-! Section: Claim theorems: state machine and client -/

/-- C1 (amended): `resetUpload` sets ExtractedText, OptimizedText and
DiffSegments to empty and ViewMode back to `original`, while the UploadNew
transition (`handleUploadClick`) leaves all four unchanged — it only clears
the file input's value and opens the browse dialog. -/
theorem reset_clears_uploadNew_preserves (s : UploaderState) (mounted : Bool) :
    (resetUpload s).extractedText = "" ∧
    (resetUpload s).optimizedResume = none ∧
    (resetUpload s).diffResult = [] ∧
    (resetUpload s).viewMode = ViewMode.original ∧
    (handleUploadClick s mounted).state.extractedText = s.extractedText ∧
    (handleUploadClick s mounted).state.optimizedResume = s.optimizedResume ∧
    (handleUploadClick s mounted).state.diffResult = s.diffResult ∧
    (handleUploadClick s mounted).state.viewMode = s.viewMode := by
  cases mounted <;> simp [resetUpload, handleUploadClick]

/-- C1 counterexample: from a populated state, invoking UploadNew
(`handleUploadClick`, with the input mounted) does not set ExtractedText,
OptimizedText and DiffSegments to empty nor ViewMode to `original`. -/
theorem uploadNew_does_not_clear :
    ¬ ((handleUploadClick populatedStateA true).state.extractedText = "" ∧
       (handleUploadClick populatedStateA true).state.optimizedResume = none ∧
       (handleUploadClick populatedStateA true).state.diffResult = [] ∧
       (handleUploadClick populatedStateA true).state.viewMode = ViewMode.original) := by
  decide

/-- C2: when ExtractedText is empty or the job description is blank after
trimming, `handleSubmit` alerts, does not call the Optimizer Client, and
leaves the state unchanged. -/
theorem handleSubmit_rejects_invalid (s : UploaderState) (descr : Option String)
    (optimize : Except Unit String)
    (h : s.extractedText = "" ∨ jsTrim (descr.getD "") = "") :
    handleSubmit s descr optimize =
      { state := s, optimizerCalled := false, alerted := true } := by
  rcases h with h | h
  · simp [handleSubmit, h]
  · by_cases he : s.extractedText = "" <;> simp [handleSubmit, he, h]

/-- C2 witness: submitting from the initial state (no extracted text) with a
non-blank job description is rejected without calling the Optimizer Client. -/
theorem handleSubmit_rejects_invalid_witness :
    handleSubmit initialState (some "backend engineer") (Except.ok "text") =
      { state := initialState, optimizerCalled := false, alerted := true } :=
  handleSubmit_rejects_invalid initialState (some "backend engineer")
    (Except.ok "text") (Or.inl rfl)

/-- C3 (amended): when extraction of a PDF upload fails, the error is logged,
loading ends, and ExtractedText and ViewMode are left unchanged — so
ExtractedText is empty afterwards exactly when it was empty before the
upload. -/
theorem extraction_failure_keeps_text (s : UploaderState) (fName pdfData : String) :
    (processFile s "application/pdf" fName pdfData (Except.error ())).loggedError = true ∧
    (processFile s "application/pdf" fName pdfData (Except.error ())).state.isLoading = false ∧
    (processFile s "application/pdf" fName pdfData (Except.error ())).state.extractedText
      = s.extractedText ∧
    (processFile s "application/pdf" fName pdfData (Except.error ())).state.viewMode
      = s.viewMode := by
  simp [processFile]

/-- C3 counterexample: re-uploading over a state that already holds extracted
text and then failing extraction leaves the old text in place, so the state
does not hold an empty ExtractedText. -/
theorem extraction_failure_text_not_emptied :
    (processFile populatedStateB "application/pdf" "second.pdf" "data"
      (Except.error ())).state.extractedText ≠ "" := by
  decide

/-- C5: `chatWithLangbase` appends the single user message obtained by
concatenating the resume text and the job description with no delimiter to
the module-level conversation log, and never removes anything from the log
(the old log is a prefix of the new one), on the success and the failure
path alike. -/
theorem chat_appends_full_message (st : LangbaseState) (m d : String)
    (svc : Except Unit PipeResponse) :
    (chatWithLangbase st m d svc).state.plainMessage =
      st.plainMessage ++ [{ role := Role.user, content := m ++ d }] ∧
    st.plainMessage <+: (chatWithLangbase st m d svc).state.plainMessage := by
  have h1 : (chatWithLangbase st m d svc).state.plainMessage =
      st.plainMessage ++ [{ role := Role.user, content := m ++ d }] := by
    cases svc with
    | error e => rfl
    | ok resp =>
      simp only [chatWithLangbase]
      split <;> rfl
  refine ⟨h1, ?_⟩
  rw [h1]
  exact List.prefix_append _ _

/-- C6: the thread identifier is stored from the response only when none was
previously stored; once a (truthy) identifier is stored, every later call
keeps it and sends it with the request; a failed call never changes it. -/
theorem threadId_set_once (st : LangbaseState) (m d : String) (resp : PipeResponse) :
    (∀ svc : Except Unit PipeResponse, optionTruthy st.threadId = true →
       (chatWithLangbase st m d svc).state.threadId = st.threadId ∧
       (chatWithLangbase st m d svc).request.threadId = st.threadId) ∧
    (optionTruthy st.threadId = false → optionTruthy resp.threadId = true →
       (chatWithLangbase st m d (Except.ok resp)).state.threadId = resp.threadId) ∧
    (∀ e : Unit, (chatWithLangbase st m d (Except.error e)).state.threadId
       = st.threadId) := by
  refine ⟨?_, ?_, ?_⟩
  · intro svc h
    cases svc with
    | error e => exact ⟨rfl, by simp [chatWithLangbase, buildRequest, h]⟩
    | ok r =>
      refine ⟨?_, ?_⟩
      · simp [chatWithLangbase, h]
      · simp [chatWithLangbase, buildRequest, h]
  · intro h1 h2
    simp [chatWithLangbase, h1, h2]
  · intro e
    rfl

/-- C6 witness: a stored identifier survives a successful exchange that
returns a different identifier and is sent with the request; with none
stored, the returned identifier is stored. -/
theorem threadId_set_once_witness :
    ((chatWithLangbase stThreadSet "m" "d" (Except.ok respWithThread)).state.threadId
        = some "thread-1" ∧
     (chatWithLangbase stThreadSet "m" "d" (Except.ok respWithThread)).request.threadId
        = some "thread-1") ∧
    (chatWithLangbase stThreadNone "m" "d" (Except.ok respWithThread)).state.threadId
        = some "thread-2" := by
  refine ⟨?_, ?_⟩
  · exact (threadId_set_once stThreadSet "m" "d" respWithThread).1
      (Except.ok respWithThread) (by decide)
  · exact (threadId_set_once stThreadNone "m" "d" respWithThread).2.1
      (by decide) (by decide)

/-- C8: a missing (or empty, hence falsy) API credential makes the
`langbase.ts` module evaluation fail with the configuration error, and the
module value needed by every optimize call exists only when the credential
is present. -/
theorem missing_credential_fatal (env : Option String) :
    (optionTruthy env = false →
       initLangbaseModule env =
         Except.error "Missing Langbase API Key. Check your .env.local file.") ∧
    (∀ m : LangbaseModule, initLangbaseModule env = Except.ok m →
       optionTruthy env = true) := by
  refine ⟨?_, ?_⟩
  · intro h
    simp [initLangbaseModule, getLangbase, h]
  · intro m hm
    cases henv : optionTruthy env with
    | true => rfl
    | false => simp [initLangbaseModule, getLangbase, henv] at hm

/-- C8 witness: with the environment variable absent, module evaluation
raises the configuration error. -/
theorem missing_credential_fatal_witness :
    initLangbaseModule none =
      Except.error "Missing Langbase API Key. Check your .env.local file." :=
  (missing_credential_fatal none).1 rfl

/-- C9: after a failed optimize call, the concatenated user message pushed
before the failure stays in the conversation log, and the next call's request
still contains it. -/
theorem failed_message_never_removed (st : LangbaseState) (m d m2 d2 : String)
    (svc2 : Except Unit PipeResponse) :
    ({ role := Role.user, content := m ++ d } : Message) ∈
      (chatWithLangbase st m d (Except.error ())).state.plainMessage ∧
    ({ role := Role.user, content := m ++ d } : Message) ∈
      (chatWithLangbase (chatWithLangbase st m d (Except.error ())).state
        m2 d2 svc2).request.messages := by
  have h1 : (chatWithLangbase st m d (Except.error ())).state.plainMessage =
      st.plainMessage ++ [{ role := Role.user, content := m ++ d }] := rfl
  refine ⟨?_, ?_⟩
  · rw [h1]
    exact List.mem_append_right _ (List.mem_singleton_self _)
  · have h2 : (chatWithLangbase (chatWithLangbase st m d (Except.error ())).state
        m2 d2 svc2).request.messages =
        (st.plainMessage ++ [{ role := Role.user, content := m ++ d }]) ++
          [{ role := Role.user, content := m2 ++ d2 }] := by
      cases svc2 with
      | error e => rfl
      | ok r => rfl
    rw [h2]
    exact List.mem_append_left _
      (List.mem_append_right _ (List.mem_singleton_self _))

/-- C10: when the Optimizer Client resolves with the empty string on a valid
submission, ViewMode still becomes `optimized`, the diff effect does not fire
(the previous DiffSegments persist), and the view-mode toggle group is not
rendered. -/
theorem empty_optimized_result_behavior (s : UploaderState) (descr : Option String)
    (h1 : s.extractedText ≠ "") (h2 : jsTrim (descr.getD "") ≠ "") :
    (handleSubmit s descr (Except.ok "")).optimizerCalled = true ∧
    (diffEffect (handleSubmit s descr (Except.ok "")).state).viewMode
      = ViewMode.optimized ∧
    (diffEffect (handleSubmit s descr (Except.ok "")).state).diffResult
      = s.diffResult ∧
    togglesOffered (diffEffect (handleSubmit s descr (Except.ok "")).state)
      = false := by
  have hs : handleSubmit s descr (Except.ok "") =
      { state := { s with isSubmitting := false, optimizedResume := some "",
                          viewMode := ViewMode.optimized },
        optimizerCalled := true, alerted := false } := by
    simp [handleSubmit, h1, h2]
  rw [hs]
  simp [diffEffect, optionTruthy, togglesOffered]

/-- C10 witness: an empty optimization result over a populated state keeps
the earlier diff, switches the view to `optimized`, and hides the toggles. -/
theorem empty_optimized_result_behavior_witness :
    (handleSubmit stateForEmptyOpt (some "sre role") (Except.ok "")).optimizerCalled
      = true ∧
    (diffEffect (handleSubmit stateForEmptyOpt (some "sre role")
        (Except.ok "")).state).viewMode = ViewMode.optimized ∧
    (diffEffect (handleSubmit stateForEmptyOpt (some "sre role")
        (Except.ok "")).state).diffResult = stateForEmptyOpt.diffResult ∧
    togglesOffered (diffEffect (handleSubmit stateForEmptyOpt (some "sre role")
        (Except.ok "")).state) = false :=
  empty_optimized_result_behavior stateForEmptyOpt (some "sre role")
    (by decide) (by decide)

/-! Section: Extractor lemmas (claim C4) -/

/-- Concatenation of the page texts, each followed by a blank line — the raw
value of `fullText` before the final `trim()`. -/
def joinTrail : List String → String
  | [] => ""
  | t :: rest => t ++ "\n\n" ++ joinTrail rest

theorem foldl_eq_joinTrail (texts : List String) (acc : String) :
    texts.foldl (fun fullText t => fullText ++ t ++ "\n\n") acc
      = acc ++ joinTrail texts := by
  induction texts generalizing acc with
  | nil => exact (String.append_empty acc).symm
  | cons t rest ih =>
    show List.foldl _ (acc ++ t ++ "\n\n") rest = _
    rw [ih, joinTrail, String.append_assoc, String.append_assoc,
      String.append_assoc]

theorem joinTrail_eq_joinSep (texts : List String) (h : texts ≠ []) :
    joinTrail texts = joinSep "\n\n" texts ++ "\n\n" := by
  induction texts with
  | nil => exact absurd rfl h
  | cons t rest ih =>
    cases rest with
    | nil => simp [joinTrail, joinSep, String.append_empty]
    | cons r rs =>
      rw [joinTrail, ih (by simp)]
      show (t ++ "\n\n") ++ (joinSep "\n\n" (r :: rs) ++ "\n\n")
        = ((t ++ "\n\n") ++ joinSep "\n\n" (r :: rs)) ++ "\n\n"
      simp [String.append_assoc]

theorem dropWhile_eq_self_of_head (p : Char → Bool) (l : List Char)
    (h : ∀ c, l.head? = some c → p c = false) :
    l.dropWhile p = l := by
  cases l with
  | nil => rfl
  | cons a t =>
    have ha : p a = false := h a rfl
    simp [List.dropWhile_cons, ha]

theorem jsTrimL_eq_self (l : List Char)
    (hhead : ∀ c, l.head? = some c → jsWhitespaceB c = false)
    (hlast : ∀ c, l.getLast? = some c → jsWhitespaceB c = false) :
    jsTrimL l = l := by
  unfold jsTrimL
  rw [dropWhile_eq_self_of_head _ l hhead]
  rw [dropWhile_eq_self_of_head _ l.reverse
    (fun c hc => hlast c ((List.head?_reverse l) ▸ hc))]
  exact List.reverse_reverse l

theorem jsTrimL_append_blank (l : List Char) :
    jsTrimL (l ++ ['\n', '\n']) = jsTrimL l := by
  have hnl : jsWhitespaceB '\n' = true := rfl
  unfold jsTrimL
  rw [List.dropWhile_append]
  by_cases h : (l.dropWhile jsWhitespaceB).isEmpty
  · rw [if_pos h]
    have h2 : l.dropWhile jsWhitespaceB = [] := by
      rwa [List.isEmpty_iff] at h
    rw [h2]
    simp [List.dropWhile_cons, hnl]
  · rw [if_neg h]
    rw [List.reverse_append]
    show ((['\n', '\n'].reverse ++ _).dropWhile _).reverse = _
    simp only [List.reverse_cons, List.reverse_nil, List.nil_append,
      List.cons_append, List.dropWhile_cons, hnl, if_true]

theorem joinSep_data_cons (t : String) (rest : List String) (h : rest ≠ []) :
    (joinSep "\n\n" (t :: rest)).data
      = t.data ++ '\n' :: '\n' :: (joinSep "\n\n" rest).data := by
  cases rest with
  | nil => exact absurd rfl h
  | cons r rs =>
    show (t ++ "\n\n" ++ joinSep "\n\n" (r :: rs)).data = _
    rw [String.data_append, String.data_append]
    simp

theorem string_data_ne_nil (t : String) (h : t ≠ "") : t.data ≠ [] :=
  fun hd => h (String.ext hd)

theorem joinSep_data_ne_nil (texts : List String) (h : texts ≠ [])
    (hne : ∀ t ∈ texts, t ≠ "") :
    (joinSep "\n\n" texts).data ≠ [] := by
  cases texts with
  | nil => exact absurd rfl h
  | cons t rest =>
    have ht : t.data ≠ [] := string_data_ne_nil t (hne t (by simp))
    cases rest with
    | nil => exact ht
    | cons r rs =>
      rw [joinSep_data_cons t (r :: rs) (by simp)]
      intro hc
      exact ht (List.append_eq_nil.mp hc).1

theorem joinSep_head?_mem (texts : List String) (h : texts ≠ [])
    (hne : ∀ t ∈ texts, t ≠ "") :
    ∃ tf ∈ texts, (joinSep "\n\n" texts).data.head? = tf.data.head? := by
  cases texts with
  | nil => exact absurd rfl h
  | cons t rest =>
    refine ⟨t, by simp, ?_⟩
    cases rest with
    | nil => rfl
    | cons r rs =>
      rw [joinSep_data_cons t (r :: rs) (by simp)]
      exact List.head?_append_of_ne_nil t.data
        (string_data_ne_nil t (hne t (by simp)))

theorem joinSep_getLast?_mem (texts : List String) (h : texts ≠ [])
    (hne : ∀ t ∈ texts, t ≠ "") :
    ∃ tl ∈ texts, (joinSep "\n\n" texts).data.getLast? = tl.data.getLast? := by
  induction texts with
  | nil => exact absurd rfl h
  | cons t rest ih =>
    cases rest with
    | nil => exact ⟨t, by simp, rfl⟩
    | cons r rs =>
      obtain ⟨tl, htl, heq⟩ := ih (by simp) (fun u hu => hne u (by simp [hu]))
      refine ⟨tl, by simp [htl], ?_⟩
      rw [joinSep_data_cons t (r :: rs) (by simp)]
      have hJ : (joinSep "\n\n" (r :: rs)).data ≠ [] :=
        joinSep_data_ne_nil (r :: rs) (by simp)
          (fun u hu => hne u (by simp [hu]))
      rw [show t.data ++ '\n' :: '\n' :: (joinSep "\n\n" (r :: rs)).data
          = (t.data ++ ['\n', '\n']) ++ (joinSep "\n\n" (r :: rs)).data by simp]
      rw [List.getLast?_append_of_ne_nil _ hJ]
      exact heq

theorem countBlankSep_append (a b : List Char) (h : '\n' ∉ a) :
    countBlankSep (a ++ b) = countBlankSep b := by
  induction a with
  | nil => rfl
  | cons c a2 ih =>
    have hc : ¬(c = '\n') := fun hce => h (hce ▸ List.mem_cons_self c a2)
    have ha2 : '\n' ∉ a2 := fun hm => h (List.mem_cons_of_mem c hm)
    rw [List.cons_append]
    rcases he : a2 ++ b with _ | ⟨d, L2⟩
    · have hb : b = [] := (List.append_eq_nil.mp he).2
      subst hb
      rfl
    · rw [countBlankSep, if_neg (fun hand => hc hand.1), ← he]
      exact ih ha2

theorem countBlankSep_no_newline (a : List Char) (h : '\n' ∉ a) :
    countBlankSep a = 0 := by
  have := countBlankSep_append a [] h
  rwa [List.append_nil] at this

theorem countBlankSep_joinSep (texts : List String)
    (h : ∀ t ∈ texts, '\n' ∉ t.data) :
    countBlankSep (joinSep "\n\n" texts).data = texts.length - 1 := by
  induction texts with
  | nil => rfl
  | cons t rest ih =>
    cases rest with
    | nil => exact countBlankSep_no_newline t.data (h t (by simp))
    | cons r rs =>
      rw [joinSep_data_cons t (r :: rs) (by simp)]
      rw [countBlankSep_append t.data _ (h t (by simp))]
      rw [countBlankSep, if_pos ⟨rfl, rfl⟩]
      rw [ih (fun u hu => h u (by simp [hu]))]
      simp

/-- C4 (amended): for a non-empty list of pages whose page texts are each
non-empty, free of newline characters, and neither starting nor ending with
whitespace, `extractTextFromPDFData` equals the per-page texts joined with a
blank-line separator and its output contains exactly N-1 blank-line
separators. (In general the code appends a blank line after every page and
then trims, so an empty or whitespace-edged page text can collapse a
separator.) -/
theorem extractText_blankline_count (pages : List (List PdfItem))
    (hne : pages ≠ [])
    (h1 : ∀ t ∈ pages.map pageText, t ≠ "")
    (h2 : ∀ t ∈ pages.map pageText, '\n' ∉ t.data)
    (h3 : ∀ t ∈ pages.map pageText, ∀ c, t.data.head? = some c →
      jsWhitespaceB c = false)
    (h4 : ∀ t ∈ pages.map pageText, ∀ c, t.data.getLast? = some c →
      jsWhitespaceB c = false) :
    extractTextFromPDFData pages = joinSep "\n\n" (pages.map pageText) ∧
    countBlankSep (extractTextFromPDFData pages).data = pages.length - 1 := by
  have htne : pages.map pageText ≠ [] := by
    intro hmap
    exact hne (List.map_eq_nil_iff.mp hmap)
  have hJfix : jsTrimL (joinSep "\n\n" (pages.map pageText)).data
      = (joinSep "\n\n" (pages.map pageText)).data := by
    obtain ⟨tf, htf, hheq⟩ := joinSep_head?_mem (pages.map pageText) htne h1
    obtain ⟨tl, htl, hleq⟩ := joinSep_getLast?_mem (pages.map pageText) htne h1
    exact jsTrimL_eq_self _
      (fun c hc => h3 tf htf c (hheq ▸ hc))
      (fun c hc => h4 tl htl c (hleq ▸ hc))
  have hmain : extractTextFromPDFData pages
      = joinSep "\n\n" (pages.map pageText) := by
    unfold extractTextFromPDFData
    rw [foldl_eq_joinTrail, String.empty_append,
      joinTrail_eq_joinSep _ htne]
    unfold jsTrim
    rw [String.data_append]
    rw [show ("\n\n" : String).data = ['\n', '\n'] from rfl]
    rw [jsTrimL_append_blank, hJfix]
  refine ⟨hmain, ?_⟩
  rw [hmain, countBlankSep_joinSep (pages.map pageText) h2, List.length_map]

/-- A two-page document whose second page has no textual items. -/
def pagesNoTextSecond : List (List PdfItem) :=
  [[PdfItem.textItem "a"], []]

/-- C4 counterexample: a valid two-page PDF whose second page carries no
textual items extracts to an output with zero blank-line separators, not
N-1 = 1. -/
theorem extractText_blankline_count_cex :
    countBlankSep (extractTextFromPDFData pagesNoTextSecond).data
      ≠ pagesNoTextSecond.length - 1 := by
  decide

/-- A two-page document with clean page texts. -/
def pagesClean : List (List PdfItem) :=
  [[PdfItem.textItem "Hello", PdfItem.textItem "world"], [PdfItem.textItem "Bye"]]

/-- C4 witness: on a two-page document with non-empty, newline-free,
whitespace-trimmed page texts, the output is the blank-line join of the page
texts and contains exactly one blank-line separator. -/
theorem extractText_blankline_count_witness :
    extractTextFromPDFData pagesClean
      = joinSep "\n\n" (pagesClean.map pageText) ∧
    countBlankSep (extractTextFromPDFData pagesClean).data
      = pagesClean.length - 1 :=
  extractText_blankline_count pagesClean (by decide) (by decide) (by decide)
    (by decide) (by decide)

/-! Section: Diff engine lemmas (claim C7) -/

theorem mk_append_mk (a b : List Char) :
    String.mk a ++ String.mk b = String.mk (a ++ b) := rfl

theorem tokAux_flatten (l : List Char) : ∀ (p : Bool) (cur : List Char),
    (tokAux p cur l).flatten = cur.reverse ++ l := by
  induction l with
  | nil => intro p cur; simp [tokAux]
  | cons c cs ih =>
    intro p cur
    by_cases hc : jsWhitespaceB c = p
    · rw [tokAux, if_pos hc, ih]
      simp
    · rw [tokAux, if_neg hc]
      simp [ih]

theorem tokenizeL_flatten (l : List Char) : (tokenizeL l).flatten = l := by
  cases l with
  | nil => rfl
  | cons c cs => rw [tokenizeL, tokAux_flatten]; rfl

theorem keepOld_map_added (ys : List (List Char)) :
    keepOld (ys.map fun y => (DiffOp.added, y)) = [] := by
  induction ys with
  | nil => rfl
  | cons y t ih => simp [keepOld, ih]

theorem keepNew_map_added (ys : List (List Char)) :
    keepNew (ys.map fun y => (DiffOp.added, y)) = ys.flatten := by
  induction ys with
  | nil => rfl
  | cons y t ih => simp [keepNew, ih]

theorem keepOld_map_removed (xs : List (List Char)) :
    keepOld (xs.map fun x => (DiffOp.removed, x)) = xs.flatten := by
  induction xs with
  | nil => rfl
  | cons x t ih => simp [keepOld, ih]

theorem keepNew_map_removed (xs : List (List Char)) :
    keepNew (xs.map fun x => (DiffOp.removed, x)) = [] := by
  induction xs with
  | nil => rfl
  | cons x t ih => simp [keepNew, ih]

theorem keepOld_lcsD (xs ys : List (List Char)) :
    keepOld (lcsD xs ys) = xs.flatten := by
  induction xs, ys using lcsD.induct with
  | case1 ys => rw [lcsD, keepOld_map_added]; rfl
  | case2 x xs => rw [lcsD, keepOld_map_removed]
  | case3 xs y ys ih => rw [lcsD, if_pos rfl]; simp [keepOld, ih]
  | case4 x xs y ys hxy hc ih1 ih2 =>
    rw [lcsD, if_neg hxy, if_pos hc]
    simp [keepOld, ih1]
  | case5 x xs y ys hxy hc ih1 ih2 =>
    rw [lcsD, if_neg hxy, if_neg hc]
    simp [keepOld, ih2]

theorem keepNew_lcsD (xs ys : List (List Char)) :
    keepNew (lcsD xs ys) = ys.flatten := by
  induction xs, ys using lcsD.induct with
  | case1 ys => rw [lcsD, keepNew_map_added]
  | case2 x xs => rw [lcsD, keepNew_map_removed]; rfl
  | case3 xs y ys ih =>
    rw [lcsD, if_pos rfl]
    simp [keepNew, ih]
  | case4 x xs y ys hxy hc ih1 ih2 =>
    rw [lcsD, if_neg hxy, if_pos hc]
    simp [keepNew, ih1]
  | case5 x xs y ys hxy hc ih1 ih2 =>
    rw [lcsD, if_neg hxy, if_neg hc]
    simp [keepNew, ih2]

theorem keepOld_mergeRuns (l : List (DiffOp × List Char)) :
    keepOld (mergeRuns l) = keepOld l := by
  induction l with
  | nil => rfl
  | cons x rest ih =>
    obtain ⟨op, t⟩ := x
    rcases h : mergeRuns rest with _ | ⟨⟨op2, t2⟩, ss⟩
    · have hrest : keepOld rest = [] := by rw [← ih, h]; rfl
      by_cases hop : op = DiffOp.added <;>
        simp [mergeRuns, h, keepOld, hop, hrest]
    · have hrest : keepOld rest = keepOld ((op2, t2) :: ss) := by rw [← ih, h]
      by_cases hop2 : op = op2
      · subst hop2
        simp only [mergeRuns, h, if_pos rfl]
        by_cases hop : op = DiffOp.added <;>
          simp [keepOld, hop, hrest]
      · simp only [mergeRuns, h, if_neg hop2]
        simp [keepOld, hrest]

theorem keepNew_mergeRuns (l : List (DiffOp × List Char)) :
    keepNew (mergeRuns l) = keepNew l := by
  induction l with
  | nil => rfl
  | cons x rest ih =>
    obtain ⟨op, t⟩ := x
    rcases h : mergeRuns rest with _ | ⟨⟨op2, t2⟩, ss⟩
    · have hrest : keepNew rest = [] := by rw [← ih, h]; rfl
      by_cases hop : op = DiffOp.removed <;>
        simp [mergeRuns, h, keepNew, hop, hrest]
    · have hrest : keepNew rest = keepNew ((op2, t2) :: ss) := by rw [← ih, h]
      by_cases hop2 : op = op2
      · subst hop2
        simp only [mergeRuns, h, if_pos rfl]
        by_cases hop : op = DiffOp.removed <;>
          simp [keepNew, hop, hrest]
      · simp only [mergeRuns, h, if_neg hop2]
        simp [keepNew, hrest]

theorem keptOriginal_map (l : List (DiffOp × List Char)) :
    keptOriginal (l.map toDiffPart) = String.mk (keepOld l) := by
  induction l with
  | nil => rfl
  | cons x rest ih =>
    obtain ⟨op, t⟩ := x
    cases op <;> simp [keptOriginal, keepOld, toDiffPart, ih, mk_append_mk]

theorem keptOptimized_map (l : List (DiffOp × List Char)) :
    keptOptimized (l.map toDiffPart) = String.mk (keepNew l) := by
  induction l with
  | nil => rfl
  | cons x rest ih =>
    obtain ⟨op, t⟩ := x
    cases op <;> simp [keptOptimized, keepNew, toDiffPart, ih, mk_append_mk]

/-- C7: concatenating the `diffWords` segments keeping only unchanged and
removed ones reconstructs `before`, keeping only unchanged and added ones
reconstructs `after`, and on equal inputs `diffWords` yields a single
unchanged segment whose text is the input. -/
theorem diffWords_reconstructs :
    (∀ before after : String,
       keptOriginal (diffWords before after) = before ∧
       keptOptimized (diffWords before after) = after) ∧
    (∀ X : String,
       diffWords X X = [{ added := false, removed := false, value := X }]) := by
  have hid : ∀ X : String,
      diffWords X X = [{ added := false, removed := false, value := X }] := by
    intro X
    unfold diffWords
    rw [if_pos rfl, tokenizeL_flatten]
  refine ⟨?_, hid⟩
  intro before after
  by_cases h : tokenizeL before.data = tokenizeL after.data
  · have hba : before = after := by
      apply String.ext
      rw [← tokenizeL_flatten before.data, ← tokenizeL_flatten after.data, h]
    subst hba
    rw [hid before]
    constructor
    · show before ++ "" = before
      exact String.append_empty before
    · show before ++ "" = before
      exact String.append_empty before
  · have hd : diffWords before after
        = (mergeRuns (lcsD (tokenizeL before.data) (tokenizeL after.data))).map
            toDiffPart := by
      unfold diffWords
      rw [if_neg h]
    rw [hd, keptOriginal_map, keptOptimized_map, keepOld_mergeRuns,
      keepNew_mergeRuns, keepOld_lcsD, keepNew_lcsD,
      tokenizeL_flatten, tokenizeL_flatten]
    exact ⟨rfl, rfl⟩

end ResumeAnalyzer
